import Mathlib

/-!
Verification development for the MemoClaw CLI's argument-parsing and
output-rendering pipeline (`src/args.ts`, `src/output.ts`).

Strings are modelled as `List Char` (JS strings at the code-unit level; all
data relevant here is plain text). JS runtime values flowing through the
renderer are modelled by the inductive `JSVal`; parsed-flag values, which the
parser only ever sets to `true` or to a string, by `ArgVal`.
-/

/-- JavaScript strings, modelled as lists of characters. -/
abbrev Str := List Char

namespace MemoClaw

/-- A flag value as produced by `parseArgs`: either boolean `true` or a string.
(`src/args.ts` never stores any other value into `result`.) -/
inductive ArgVal where
  | vTrue
  | vStr (s : Str)
deriving DecidableEq, Repr

/-- The parser's result object (`ParsedArgs` in `src/args.ts`): the positional
list `_` and the flag map, kept as an insertion-ordered association list with
JS-object semantics (assignment to an existing key overwrites in place). -/
structure ParsedArgs where
  positionals : List Str
  flags : List (Str × ArgVal)
deriving DecidableEq, Repr

/-- First-match association-list lookup (JS object property read). -/
def assocLookup (l : List (Str × α)) (k : Str) : Option α :=
  match l with
  | [] => none
  | (k₁, v) :: t => if k₁ = k then some v else assocLookup t k

/-- JS object property assignment `result[key] = v`: overwrite the existing
entry in place, or append a new one. -/
def assocSet (l : List (Str × ArgVal)) (k : Str) (v : ArgVal) : List (Str × ArgVal) :=
  match l with
  | [] => [(k, v)]
  | (k₁, v₁) :: t => if k₁ = k then (k, v) :: t else (k₁, v₁) :: assocSet t k v

/-- Set a flag on the parse state. -/
def setFlag (st : ParsedArgs) (k : Str) (v : ArgVal) : ParsedArgs :=
  { st with flags := assocSet st.flags k v }

/-- Append one positional argument (`result._.push(arg)`). -/
def pushPos (st : ParsedArgs) (a : Str) : ParsedArgs :=
  { st with positionals := st.positionals ++ [a] }

/-- Read a flag from the parse result. -/
def getFlag (st : ParsedArgs) (k : Str) : Option ArgVal :=
  assocLookup st.flags k

/-- Models `BOOLEAN_FLAGS` from `src/args.ts`: flags that never take a value. -/
def booleanFlags : List Str :=
  ["help".data, "version".data, "raw".data, "json".data, "quiet".data,
   "dryRun".data, "verbose".data, "noColor".data, "force".data, "count".data,
   "wide".data, "pretty".data, "watch".data, "interactive".data, "yes".data,
   "reverse".data, "noTruncate".data, "immutable".data, "pinned".data,
   "batch".data]

/-- Models `SHORT_FLAGS` from `src/args.ts`: the short-flag alias table. -/
def shortFlags : List (Str × Str) :=
  [("-h".data, "help".data), ("-v".data, "version".data), ("-j".data, "json".data),
   ("-q".data, "quiet".data), ("-n".data, "namespace".data), ("-l".data, "limit".data),
   ("-t".data, "tags".data), ("-o".data, "offset".data), ("-f".data, "format".data),
   ("-p".data, "pretty".data), ("-i".data, "interactive".data), ("-w".data, "watch".data),
   ("-d".data, "dryRun".data), ("-c".data, "concurrency".data), ("-s".data, "truncate".data),
   ("-y".data, "yes".data), ("-T".data, "timeout".data), ("-x".data, "text".data),
   ("-e".data, "expiresAt".data), ("-C".data, "category".data), ("-S".data, "sessionId".data),
   ("-A".data, "agentId".data), ("-r".data, "reverse".data), ("-m".data, "sortBy".data),
   ("-k".data, "columns".data), ("-O".data, "output".data), ("-F".data, "field".data)]

/-- JS `arg.startsWith("-")`. -/
def startsWithDash (s : Str) : Bool :=
  match s with
  | '-' :: _ => true
  | _ => false

/-- JS `arg.startsWith("--")`. -/
def startsWithTwoDashes (s : Str) : Bool :=
  match s with
  | '-' :: '-' :: _ => true
  | _ => false

/-- The regex test `/^--?\d/.test(next)` from `src/args.ts` line 150: one or
two leading dashes followed by a decimal digit (the negative-number escape). -/
def negNumLike (s : Str) : Bool :=
  match s with
  | '-' :: '-' :: c :: _ => c.isDigit
  | '-' :: c :: _ => c.isDigit
  | _ => false

/-- Shape test for the short-flag branch of the parser's main dispatch:
`arg[0] === '-' && arg[1] !== '-' && arg.length >= 2`. -/
def isShortShape (s : Str) : Bool :=
  match s with
  | '-' :: c :: _ => c ≠ '-'
  | _ => false

/-- Kebab-to-camel conversion: the global replace of the pattern
"dash followed by a captured ASCII lowercase letter" with the letter
uppercased, from the long-flag branch of `src/args.ts`. A hyphen immediately
followed by an ASCII lowercase letter becomes that letter uppercased;
everything else passes through (left-to-right, non-overlapping). -/
def camelize : Str → Str
  | [] => []
  | '-' :: c :: t => if c.isLower then c.toUpper :: camelize t else '-' :: camelize (c :: t)
  | c :: t => c :: camelize t

/-- The `-X=value` check at the top of the short-flag branch (`src/args.ts`
lines 57–67): if the argument contains `=` and the part before the first `=`
is a known short alias, yield the canonical flag name and the literal value
after the `=`. -/
def inlineShort (arg : Str) : Option (Str × Str) :=
  if '=' ∈ arg then
    match assocLookup shortFlags (arg.takeWhile (fun c => c ≠ '=')) with
    | some key => some (key, (arg.dropWhile (fun c => c ≠ '=')).drop 1)
    | none => none
  else none

/-- Do all characters of a combined short-flag body resolve via the alias
table (`allValid` in `src/args.ts` lines 88–92)? -/
def allValidShort (cs : List Char) : Bool :=
  cs.all (fun c => (assocLookup shortFlags ['-', c]).isSome)

/-- The `for (ci …)` loop over a combined short token's characters
(`src/args.ts` lines 95–113). Returns the updated state and whether the token
after the combined token was consumed as the last flag's value.
A character that fails to resolve is skipped; the caller only runs this after
`allValidShort` holds, exactly as the code guards the loop with `allValid`.
Mid-sequence characters always bind `true`: the code's `BOOLEAN_FLAGS` test
and its final `else` branch both assign `true` for non-last positions. -/
def combinedGo (st : ParsedArgs) (cs : List Char) (next : Option Str) : ParsedArgs × Bool :=
  match cs with
  | [] => (st, false)
  | [c] =>
    match assocLookup shortFlags ['-', c] with
    | none => (st, false)
    | some key =>
      if key ∈ booleanFlags then (setFlag st key .vTrue, false)
      else
        match next with
        | some v => if startsWithDash v then (setFlag st key .vTrue, false)
                    else (setFlag st key (.vStr v), true)
        | none => (setFlag st key .vTrue, false)
  | c :: cs₁ =>
    match assocLookup shortFlags ['-', c] with
    | none => combinedGo st cs₁ next
    | some key => combinedGo (setFlag st key .vTrue) cs₁ next

/-- The combined-short-flag rule as the specification states it: decompose
the body into characters, process left to right with all but the last bound
to boolean `true` (a mid-sequence value-typed flag degrades to `true`), and
the last following the single-short-flag peek rule (consume the next token as
a value only if it exists and does not start with a dash). Returns the
updated result and the tokens remaining after the combined token. Written
from the spec's wording, to be compared with the code path (`combinedGo`). -/
def combinedShortSpec (cs : List Char) (rest : List Str) (st : ParsedArgs) :
    ParsedArgs × List Str :=
  match cs with
  | [] => (st, rest)
  | [c] =>
    match assocLookup shortFlags ['-', c] with
    | none => (st, rest)
    | some key =>
      if key ∈ booleanFlags then (setFlag st key .vTrue, rest)
      else
        match rest with
        | v :: rest₁ =>
          if startsWithDash v then (setFlag st key .vTrue, rest)
          else (setFlag st key (.vStr v), rest₁)
        | [] => (setFlag st key .vTrue, rest)
  | c :: cs₁ =>
    match assocLookup shortFlags ['-', c] with
    | none => (st, rest)
    | some key => combinedShortSpec cs₁ rest (setFlag st key .vTrue)

/-- Result of processing one token of the argument list: either continue
(with the flag of whether the *following* token was consumed as a value,
i.e. whether the code did `i += 2` instead of `i++`), or stop (the bare
`--` escape, which pushes every remaining token and breaks the loop). -/
inductive StepRes where
  | cont (st : ParsedArgs) (consumedNext : Bool)
  | stop (st : ParsedArgs)
deriving DecidableEq, Repr

/-- One iteration of the main `while` loop of `parseArgs` (`src/args.ts`
lines 51–162): process the token `arg`, with `rest` the tokens after it. -/
def stepToken (arg : Str) (rest : List Str) (st : ParsedArgs) : StepRes :=
  if isShortShape arg then
    -- short flag: inline (-n=v), single (-j), or combined (-jq)
    match inlineShort arg with
    | some (key, v) => .cont (setFlag st key (.vStr v)) false
    | none =>
      if arg.length = 2 then
        match assocLookup shortFlags arg with
        | some key =>
          if key ∈ booleanFlags then .cont (setFlag st key .vTrue) false
          else
            match rest with
            | v :: _ =>
              if startsWithDash v then .cont (setFlag st key .vTrue) false
              else .cont (setFlag st key (.vStr v)) true
            | [] => .cont (setFlag st key .vTrue) false
        | none => .cont (pushPos st arg) false
      else
        match assocLookup shortFlags arg with
        | some _ => .cont (pushPos st arg) false
        | none =>
          if allValidShort (arg.drop 1) then
            let res := combinedGo st (arg.drop 1) rest.head?
            .cont res.1 res.2
          else .cont (pushPos st arg) false
  else if arg = ['-', '-'] then
    -- bare "--": everything after is positional, parsing stops
    .stop { st with positionals := st.positionals ++ rest }
  else if startsWithTwoDashes arg then
    -- long flag
    if '=' ∈ arg then
      .cont (setFlag st (camelize ((arg.takeWhile (fun c => c ≠ '=')).drop 2))
        (.vStr ((arg.dropWhile (fun c => c ≠ '=')).drop 1))) false
    else
      let key := camelize (arg.drop 2)
      if key ∈ booleanFlags then .cont (setFlag st key .vTrue) false
      else
        match rest with
        | next :: _ =>
          if !startsWithTwoDashes next || negNumLike next then
            .cont (setFlag st key (.vStr next)) true
          else .cont (setFlag st key .vTrue) false
        | [] => .cont (setFlag st key .vTrue) false
  else .cont (pushPos st arg) false

/-- The main `while` loop of `parseArgs`, as structural recursion over the
remaining tokens; the mutable `result` object becomes the accumulator `st`.
(`consumedNext = true` with an empty remainder cannot occur — a value is only
consumed when a next token exists — so that branch just returns the state.) -/
def parseLoop : List Str → ParsedArgs → ParsedArgs
  | [], st => st
  | arg :: rest, st =>
    match stepToken arg rest st with
    | .stop st₁ => st₁
    | .cont st₁ consumed =>
      if consumed then
        match rest with
        | _ :: rest₁ => parseLoop rest₁ st₁
        | [] => st₁
      else parseLoop rest st₁

/-- Models `parseArgs` from `src/args.ts`: run the loop from the empty result. -/
def parseArgs (args : List Str) : ParsedArgs :=
  parseLoop args ⟨[], []⟩

/-! ## JavaScript runtime values

The renderer (`src/output.ts`) receives arbitrary parsed-JSON data plus the
values `undefined`/`null`; `JSVal` models these. Numbers are modelled as
integers (the CLI renders parsed JSON counts/ids; float formatting is outside
the model). Property reads model own properties of objects, arrays and
strings; prototype-inherited members (methods) are not modelled. -/

inductive JSVal where
  | undefined
  | null
  | bool (b : Bool)
  | num (n : Int)
  | str (s : Str)
  | arr (elems : List JSVal)
  | obj (fields : List (Str × JSVal))

/-- JS truthiness for the values of `JSVal`. -/
def truthy : JSVal → Bool
  | .undefined => false
  | .null => false
  | .bool b => b
  | .num n => n ≠ 0
  | .str s => s ≠ []
  | .arr _ => true
  | .obj _ => true

/-- Decimal rendering of a natural number, most significant digit first. -/
def natToStr (n : Nat) : Str := Nat.toDigits 10 n

/-- JS number-to-string for integers (`String(n)`). -/
def intToStr (n : Int) : Str :=
  if n < 0 then '-' :: natToStr n.natAbs else natToStr n.toNat

mutual
/-- JS `String(v)` for `JSVal` values: arrays render as their elements joined
by commas (with `null`/`undefined` elements as empty), objects as the tag
string produced by the default `Object.prototype.toString`. -/
def jsToString : JSVal → Str
  | .undefined => "undefined".data
  | .null => "null".data
  | .bool true => "true".data
  | .bool false => "false".data
  | .num n => intToStr n
  | .str s => s
  | .arr xs => arrJoinComma xs
  | .obj _ => "[object Object]".data
/-- Models `Array.prototype.toString`: join with commas, `null`/`undefined` as empty. -/
def arrJoinComma : List JSVal → Str
  | [] => []
  | [x] =>
    (match x with
     | .undefined => []
     | .null => []
     | v => jsToString v)
  | x :: xs =>
    (match x with
     | .undefined => []
     | .null => []
     | v => jsToString v) ++ ',' :: arrJoinComma xs
end

/-- Opening curly brace (kept out of literals). -/
def lbrace : Char := Char.ofNat 123

/-- Closing curly brace (kept out of literals). -/
def rbrace : Char := Char.ofNat 125

/-- Lowercase hex digit. -/
def hexDigit (n : Nat) : Char :=
  if n < 10 then Char.ofNat (48 + n) else Char.ofNat (87 + n)

/-- Four-digit lowercase hex, for JSON control-character escapes. -/
def hex4 (n : Nat) : Str :=
  [hexDigit (n / 4096 % 16), hexDigit (n / 256 % 16), hexDigit (n / 16 % 16), hexDigit (n % 16)]

/-- JSON string-character escaping as performed by `JSON.stringify`. -/
def jsonEscChar (c : Char) : Str :=
  if c = '"' then ['\\', '"']
  else if c = '\\' then ['\\', '\\']
  else if c = '\n' then ['\\', 'n']
  else if c = '\r' then ['\\', 'r']
  else if c = '\t' then ['\\', 't']
  else if c = Char.ofNat 8 then ['\\', 'b']
  else if c = Char.ofNat 12 then ['\\', 'f']
  else if c.toNat < 32 then '\\' :: 'u' :: hex4 c.toNat
  else [c]

/-- JSON string literal rendering (quotes plus escaping). -/
def jsonEscString (s : Str) : Str :=
  '"' :: (s.map jsonEscChar).flatten ++ ['"']

mutual
/-- Compact `JSON.stringify(v)` (no spacing). `undefined` appears only as an
array element here, where `JSON.stringify` renders `null`; object entries
with `undefined` values are dropped (`jsonCompactObjEntries`); the top-level
`undefined` quirk is handled by `jsonWriteLine` below. -/
def jsonCompact : JSVal → Str
  | .undefined => "null".data
  | .null => "null".data
  | .bool true => "true".data
  | .bool false => "false".data
  | .num n => intToStr n
  | .str s => jsonEscString s
  | .arr xs => '[' :: List.intercalate [','] (jsonCompactArrEntries xs) ++ [']']
  | .obj fs => lbrace :: List.intercalate [','] (jsonCompactObjEntries fs) ++ [rbrace]
/-- Array elements, in order (`undefined` renders as `null` inside arrays). -/
def jsonCompactArrEntries : List JSVal → List Str
  | [] => []
  | x :: t => jsonCompact x :: jsonCompactArrEntries t
/-- Object entries; entries whose value is `undefined` are skipped. -/
def jsonCompactObjEntries : List (Str × JSVal) → List Str
  | [] => []
  | (k, v) :: t =>
    match v with
    | .undefined => jsonCompactObjEntries t
    | v => (jsonEscString k ++ ':' :: jsonCompact v) :: jsonCompactObjEntries t
end

/-- A run of spaces (pretty-printer indentation). -/
def indentStr (n : Nat) : Str := List.replicate n ' '

mutual
/-- Models `JSON.stringify(v, null, 2)`: two-space-indented pretty printing.
`ind` is the indentation column of the surrounding value. -/
def jsonPretty (ind : Nat) : JSVal → Str
  | .undefined => "null".data
  | .null => "null".data
  | .bool true => "true".data
  | .bool false => "false".data
  | .num n => intToStr n
  | .str s => jsonEscString s
  | .arr [] => ['[', ']']
  | .arr (x :: xs) =>
    '[' :: '\n' ::
      List.intercalate [',', '\n'] (jsonPrettyArrEntries (ind + 2) (x :: xs)) ++
      '\n' :: indentStr ind ++ [']']
  | .obj fs =>
    match jsonPrettyObjEntries (ind + 2) fs with
    | [] => [lbrace, rbrace]
    | es => lbrace :: '\n' :: List.intercalate [',', '\n'] es ++ '\n' :: indentStr ind ++ [rbrace]
/-- Pretty array elements, each on its own indented line. -/
def jsonPrettyArrEntries (ind : Nat) : List JSVal → List Str
  | [] => []
  | x :: t => (indentStr ind ++ jsonPretty ind x) :: jsonPrettyArrEntries ind t
/-- Pretty object entries (skipping `undefined` values), each indented. -/
def jsonPrettyObjEntries (ind : Nat) : List (Str × JSVal) → List Str
  | [] => []
  | (k, v) :: t =>
    match v with
    | .undefined => jsonPrettyObjEntries ind t
    | v => (indentStr ind ++ jsonEscString k ++ ':' :: ' ' :: jsonPretty ind v) ::
        jsonPrettyObjEntries ind t
end

/-- The single line written by `outputWrite(JSON.stringify(v, …))`: for
top-level `undefined`, `JSON.stringify` returns `undefined` and
`[undefined].join(" ")` yields the empty line. -/
def jsonWriteLine (pretty : Bool) : JSVal → Str
  | .undefined => []
  | v => if pretty then jsonPretty 0 v else jsonCompact v

mutual
/-- Modelled from the spec: YAML serialization "with 2-space indent" is done
by the external js-yaml dependency (`yaml.dump`), whose source is not part of
this repository; this model emits block-style YAML for the shapes the CLI
renders. No claim below depends on the exact text, only on the renderer
emitting it as one write. -/
def yamlDump (ind : Nat) : JSVal → Str
  | .arr [] => "[]\n".data
  | .arr (x :: xs) => yamlArrItems ind (x :: xs)
  | .obj [] => lbrace :: rbrace :: ['\n']
  | .obj (f :: fs) => yamlObjItems ind (f :: fs)
  | v => jsToString v ++ ['\n']
/-- Block-sequence items. -/
def yamlArrItems (ind : Nat) : List JSVal → Str
  | [] => []
  | x :: xs => indentStr ind ++ '-' :: ' ' :: yamlDump (ind + 2) x ++ yamlArrItems ind xs
/-- Block-mapping entries. -/
def yamlObjItems (ind : Nat) : List (Str × JSVal) → Str
  | [] => []
  | (k, v) :: fs =>
    indentStr ind ++ k ++ ':' :: ' ' :: yamlDump (ind + 2) v ++ yamlObjItems ind fs
end

/-- JS canonical array-index test for a property key: `"0"`, or digits with
no leading zero (the form under which `arr[key]` hits an element). -/
def canonicalIndex (p : Str) : Option Nat :=
  match p with
  | [] => none
  | c :: rest =>
    if c = '0' then (if rest = [] then some 0 else none)
    else if (c :: rest).all Char.isDigit then
      some ((c :: rest).foldl (fun acc d => acc * 10 + (d.toNat - 48)) 0)
    else none

/-- Property read `v[p]`: own properties of objects, plus the indexed
elements and `length` of arrays and strings; anything else is `undefined`. -/
def getProp : JSVal → Str → JSVal
  | .obj fs, p => (assocLookup fs p).getD .undefined
  | .arr xs, p =>
    if p = "length".data then .num xs.length
    else
      match canonicalIndex p with
      | some i => xs.getD i .undefined
      | none => .undefined
  | .str s, p =>
    if p = "length".data then .num s.length
    else
      match canonicalIndex p with
      | some i =>
        match s.get? i with
        | some c => .str [c]
        | none => .undefined
      | none => .undefined
  | _, _ => .undefined

/-- JS `field.split(".")`. -/
def splitOnDot : Str → List Str
  | [] => [[]]
  | '.' :: t => [] :: splitOnDot t
  | c :: t =>
    match splitOnDot t with
    | [] => [[c]]
    | f :: r => (c :: f) :: r

/-- The walk of `extractField` (`src/output.ts` lines 77–85): before each
step, a `null`/`undefined` current value short-circuits to `undefined`; the
final value is returned as is. -/
def extractWalk : JSVal → List Str → JSVal
  | v, [] => v
  | .undefined, _ :: _ => .undefined
  | .null, _ :: _ => .undefined
  | v, p :: ps => extractWalk (getProp v p) ps

/-- Models `extractField(data, field)` from `src/output.ts`. -/
def extractField (data : JSVal) (field : Str) : JSVal :=
  extractWalk data (splitOnDot field)

/-! ## Output configuration (`src/output.ts` module state) -/

/-- The `outputFormat` enumeration. -/
inductive Fmt where
  | json | table | csv | tsv | yaml
deriving DecidableEq, Repr

/-- The module-level output state of `src/output.ts` (lines 13–20).
`outputTruncate` is a JS number: `some n` for the integer `n`, `none` for
`NaN` (a failed `parseInt`). `outputFile` keeps only the configured path; the
claims concern the lines written, which are the same for file and console. -/
structure OutState where
  outputJson : Bool
  outputQuiet : Bool
  outputPretty : Bool
  outputFormat : Fmt
  outputTruncate : Option Int
  outputFile : Option Str
  noTruncate : Bool
  outputField : Option Str
deriving DecidableEq, Repr

/-- The initial module state (`src/output.ts` lines 13–20). -/
def initialOutState : OutState :=
  { outputJson := false, outputQuiet := false, outputPretty := false,
    outputFormat := .table, outputTruncate := some 0, outputFile := none,
    noTruncate := false, outputField := none }

/-- The argument object consumed by `configureOutput` — the parsed-args
fields it reads, each an arbitrary JS value (`undefined` when absent). -/
structure CfgArgs where
  json : JSVal := .undefined
  quiet : JSVal := .undefined
  pretty : JSVal := .undefined
  field : JSVal := .undefined
  format : JSVal := .undefined
  truncate : JSVal := .undefined
  noTruncate : JSVal := .undefined
  output : JSVal := .undefined

/-- JS whitespace accepted by `parseInt` before the number. -/
def isJsSpace (c : Char) : Bool :=
  c = ' ' || c = '\t' || c = '\n' || c = '\r' || c = Char.ofNat 11 || c = Char.ofNat 12

/-- Hex digit test for `parseInt`'s `0x` form. -/
def isHexDigitChar (c : Char) : Bool :=
  c.isDigit || ('a' ≤ c && c ≤ 'f') || ('A' ≤ c && c ≤ 'F')

/-- Value of a hex digit. -/
def hexDigitVal (c : Char) : Nat :=
  if c.isDigit then c.toNat - 48
  else if 'a' ≤ c && c ≤ 'f' then c.toNat - 87
  else c.toNat - 55

/-- JS `parseInt(s)` (radix unspecified): skip leading whitespace, optional
sign, then either a `0x`/`0X` hex prefix with hex digits or a run of decimal
digits; no digits at all gives `NaN` (modelled as `none`). -/
def parseIntJS (s : Str) : Option Int :=
  let s₁ := s.dropWhile isJsSpace
  let sign : Int := if s₁.head? = some '-' then -1 else 1
  let s₂ := match s₁ with
    | '-' :: t => t
    | '+' :: t => t
    | t => t
  match s₂ with
  | '0' :: 'x' :: t =>
    let ds := t.takeWhile isHexDigitChar
    if ds = [] then none
    else some (sign * (ds.foldl (fun acc d => acc * 16 + hexDigitVal d) 0 : Nat))
  | '0' :: 'X' :: t =>
    let ds := t.takeWhile isHexDigitChar
    if ds = [] then none
    else some (sign * (ds.foldl (fun acc d => acc * 16 + hexDigitVal d) 0 : Nat))
  | t =>
    let ds := t.takeWhile Char.isDigit
    if ds = [] then none
    else some (sign * (ds.foldl (fun acc d => acc * 10 + (d.toNat - 48)) 0 : Nat))

/-- Models `configureOutput` lines 24–26: the unconditional assignments of
`outputJson`, `outputQuiet`, `outputPretty`. -/
def cfgStepBase (a : CfgArgs) (s : OutState) : OutState :=
  { s with outputJson := truthy a.json, outputQuiet := truthy a.quiet,
           outputPretty := truthy a.pretty }

/-- Models `configureOutput` lines 28–31: `if (args.field && args.field !== true)`
set the field selector and force json mode. -/
def cfgStepField (a : CfgArgs) (s : OutState) : OutState :=
  match a.field with
  | .bool true => s
  | f => if truthy f then { s with outputField := some (jsToString f), outputJson := true }
         else s

/-- Models `configureOutput` lines 34–35: lowercase `String(args.format)` and map
the `yml` alias to `yaml`. -/
def normFmt (a : CfgArgs) : Str :=
  let fmt := (jsToString a.format).map Char.toLower
  if fmt = "yml".data then "yaml".data else fmt

/-- Models `configureOutput` lines 36–38: apply the normalized format name when it
is one of the known formats. -/
def cfgStepFormat (a : CfgArgs) (s : OutState) : OutState :=
  if truthy a.format then
    if normFmt a = "json".data then { s with outputFormat := .json }
    else if normFmt a = "table".data then { s with outputFormat := .table }
    else if normFmt a = "csv".data then { s with outputFormat := .csv }
    else if normFmt a = "tsv".data then { s with outputFormat := .tsv }
    else if normFmt a = "yaml".data then { s with outputFormat := .yaml }
    else s
  else s

/-- Models `configureOutput` line 40: `if (args.json) outputFormat = 'json'`. -/
def cfgStepJson (a : CfgArgs) (s : OutState) : OutState :=
  if truthy a.json then { s with outputFormat := .json } else s

/-- Models `configureOutput` lines 42–46: `args.truncate` handling — a value that is
neither nullish nor `true` goes through `parseInt`, bare `true` means 80. -/
def cfgStepTruncate (a : CfgArgs) (s : OutState) : OutState :=
  match a.truncate with
  | .undefined => s
  | .null => s
  | .bool true => { s with outputTruncate := some 80 }
  | v => { s with outputTruncate := parseIntJS (jsToString v) }

/-- Models `configureOutput` line 48: `noTruncate = !!args.noTruncate`. -/
def cfgStepNoTrunc (a : CfgArgs) (s : OutState) : OutState :=
  { s with noTruncate := truthy a.noTruncate }

/-- Models `configureOutput` line 49: `if (noTruncate) outputTruncate = 0`. -/
def cfgStepNoTruncApply (s : OutState) : OutState :=
  if s.noTruncate then { s with outputTruncate := some 0 } else s

/-- Models `configureOutput` lines 51–54: record the output file path (the
file-truncating side effect is outside the modelled state). -/
def cfgStepOutput (a : CfgArgs) (s : OutState) : OutState :=
  if truthy a.output then { s with outputFile := some (jsToString a.output) } else s

/-- Models `configureOutput(args)` from `src/output.ts` (lines 22–55), as a pure
state transformer over the module state: the statements of the function body
applied in source order. -/
def configureOutput (a : CfgArgs) (s : OutState) : OutState :=
  cfgStepOutput a (cfgStepNoTruncApply (cfgStepNoTrunc a (cfgStepTruncate a
    (cfgStepJson a (cfgStepFormat a (cfgStepField a (cfgStepBase a s)))))))

/-! ## Output functions

Each rendering function returns the list of lines it writes (each
`outputWrite`/`outputError` call is one element; whether lines go to the
console or are appended to `outputFile` does not change their content). -/

/-- Models a color-capable terminal: NO_COLOR unset and stdout a TTY
(`src/colors.ts` line 5). No claim depends on the color text. -/
def noColorEnv : Bool := false

/-- ANSI escape prefix. -/
def esc : Str := [Char.ofNat 27]

/-- Models `c.reset`. -/
def colorReset : Str := if noColorEnv then [] else esc ++ "[0m".data

/-- Models `c.bold`. -/
def colorBold : Str := if noColorEnv then [] else esc ++ "[1m".data

/-- Models `c.dim`. -/
def colorDim : Str := if noColorEnv then [] else esc ++ "[2m".data

/-- Models `c.green`. -/
def colorGreen : Str := if noColorEnv then [] else esc ++ "[32m".data

/-- Models `c.yellow`. -/
def colorYellow : Str := if noColorEnv then [] else esc ++ "[33m".data

/-- Models `c.blue`. -/
def colorBlue : Str := if noColorEnv then [] else esc ++ "[34m".data

/-- Truthiness of the `outputField` module variable (`null` or a string;
the empty string is falsy). -/
def optStrTruthy : Option Str → Bool
  | none => false
  | some s => s ≠ []

/-- The embedded-quote doubling of the CSV escaper (the global replace of a
quote by two quotes in `src/output.ts` line 114). -/
def dquote (s : Str) : Str :=
  (s.map (fun c => if c = '"' then ['"', '"'] else [c])).flatten

/-- RFC4180-style escaping of one CSV field (`src/output.ts` line 114):
wrap in quotes and double embedded quotes iff the field contains a comma or
a quote. -/
def csvEscape (s : Str) : Str :=
  if ',' ∈ s ∨ '"' ∈ s then '"' :: dquote s ++ ['"'] else s

/-- The raw cell string before separator escaping (`src/output.ts` line 112):
`null`/`undefined` cells become empty, everything else `String(val)`. -/
def cellRaw (row : JSVal) (h : Str) : Str :=
  match getProp row h with
  | .undefined => []
  | .null => []
  | v => jsToString v

/-- TSV sanitization (`src/output.ts` line 116): tabs and newlines inside a
field become single spaces. -/
def tsvSanitize (s : Str) : Str :=
  s.map (fun c => if c = '\t' ∨ c = '\n' then ' ' else c)

/-- Models `Object.keys`: own enumerable keys. For the record objects the CLI
renders these are the fields in insertion order; for arrays and strings the
element indices. (The numeric-key-first reordering JS applies to objects
with integer-like keys is not modelled.) -/
def objKeys : JSVal → List Str
  | .obj fs => fs.map (fun f => f.1)
  | .arr xs => (List.range xs.length).map natToStr
  | .str s => (List.range s.length).map natToStr
  | _ => []

/-- Models `typeof val === "object"` for a defined value: `null`, arrays and
objects qualify. -/
def isObjType : JSVal → Bool
  | .null => true
  | .arr _ => true
  | .obj _ => true
  | _ => false

/-- The CSV/TSV branch of `out` (`src/output.ts` lines 103–123). -/
def csvTsvRender (cfg : OutState) (data : JSVal) : List Str :=
  let sep : Char := if cfg.outputFormat = .tsv then '\t' else ','
  match data with
  | .arr [] => []
  | .arr (r₀ :: rs) =>
    let headers := objKeys r₀
    List.intercalate [sep] headers ::
      (r₀ :: rs).map (fun row =>
        List.intercalate [sep] (headers.map (fun h =>
          if cfg.outputFormat = .csv then csvEscape (cellRaw row h)
          else tsvSanitize (cellRaw row h))))
  | .str s => [s]
  | d => [jsonWriteLine true d]

/-- Models `out(data)` from `src/output.ts` (lines 87–129): the generic renderer. -/
def out (cfg : OutState) (data : JSVal) : List Str :=
  if cfg.outputQuiet then []
  else if optStrTruthy cfg.outputField then
    match extractField data (cfg.outputField.getD []) with
    | .undefined => []
    | v =>
      if isObjType v then [jsonWriteLine cfg.outputPretty v]
      else [jsToString v]
  else if cfg.outputJson || cfg.outputFormat = .json then
    [jsonWriteLine cfg.outputPretty data]
  else if cfg.outputFormat = .yaml then
    [yamlDump 0 data]
  else if cfg.outputFormat = .csv ∨ cfg.outputFormat = .tsv then
    csvTsvRender cfg data
  else
    match data with
    | .str s => [s]
    | d => [jsonWriteLine true d]

/-- Models `success(msg)` (`src/output.ts` lines 131–135): suppressed under quiet
and under json mode; otherwise one decorated line via `outputWrite`. -/
def success (cfg : OutState) (msg : Str) : List Str :=
  if cfg.outputQuiet then []
  else if cfg.outputJson then []
  else [colorGreen ++ '✓' :: colorReset ++ ' ' :: msg]

/-- Models `warn(msg)` (`src/output.ts` lines 137–139): always one line via
`outputError`. -/
def warn (_cfg : OutState) (msg : Str) : List Str :=
  [colorYellow ++ '⚠' :: colorReset ++ ' ' :: msg]

/-- Models `info(msg)` (`src/output.ts` lines 141–145): suppressed under quiet and
under json mode; otherwise one line via `outputError`. -/
def info (cfg : OutState) (msg : Str) : List Str :=
  if cfg.outputQuiet then []
  else if cfg.outputJson then []
  else [colorBlue ++ 'ℹ' :: colorReset ++ ' ' :: msg]

/-- A table column descriptor (`{key, label, width?}`). -/
structure Column where
  key : Str
  label : Str
  width : Option Nat := none
deriving DecidableEq, Repr

/-- JS `s.padEnd(w)` with spaces. -/
def padEnd (s : Str) (w : Nat) : Str :=
  s ++ List.replicate (w - s.length) ' '

/-- JS `s.slice(0, e)` with a possibly negative end index. -/
def jsSlice0 (s : Str) (e : Int) : Str :=
  if 0 ≤ e then s.take e.toNat else s.take (s.length - (-e).toNat)

/-- One rendered table cell (`src/output.ts` lines 185–188): truncate with an
ellipsis when over the column width, else right-pad. -/
def tableCellRender (val : Str) (w : Nat) : Str :=
  if val.length > w then jsSlice0 val ((w : Int) - 1) ++ ['…'] else padEnd val w

/-- Models `table(rows, columns?, opts?)` from `src/output.ts` (lines 147–191). -/
def table (cfg : OutState) (rows : List JSVal) (columns : Option (List Column))
    (wide : Bool) : List Str :=
  match rows with
  | [] => []
  | r₀ :: _ =>
    if cfg.outputJson || cfg.outputFormat = .json then
      [jsonWriteLine true (.arr rows)]
    else if cfg.outputFormat = .yaml then
      [yamlDump 0 (.arr rows)]
    else if cfg.outputFormat = .csv ∨ cfg.outputFormat = .tsv then
      out cfg (.arr rows)
    else
      let cols := match columns with
        | some cs => cs
        | none => (objKeys r₀).map (fun k => { key := k, label := k.map Char.toUpper })
      let capWidth := if wide then 120 else 60
      let sized := cols.map (fun col =>
        match col.width with
        | some w => (col, w)
        | none =>
          (col, min (max col.label.length
            ((rows.map (fun r => (cellRaw r col.key).length)).foldr max 0)) capWidth))
      let header := List.intercalate [' ', ' '] (sized.map (fun cw => padEnd cw.1.label cw.2))
      let sepLine := List.intercalate ['─', '─'] (sized.map (fun cw => List.replicate cw.2 '─'))
      (colorBold ++ header ++ colorReset) ::
        (colorDim ++ sepLine ++ colorReset) ::
        rows.map (fun r =>
          List.intercalate [' ', ' '] (sized.map (fun cw => tableCellRender (cellRaw r cw.1.key) cw.2)))

/-- Models `truncate(text, width)` from `src/output.ts` (lines 199–202). -/
def truncate (text : Str) (width : Int) : Str :=
  if width ≤ 0 ∨ (text.length : Int) ≤ width then text
  else jsSlice0 text (width - 1) ++ ['…']

/-! ## Specification-side CSV reading

The round-trip claim compares the CSV the renderer writes with what a
CSV reader recovers. The definitions below are the specification side: the
document is the byte stream of the `outputWrite` calls (each line followed by
a newline), and reading splits it into lines and then into RFC4180 fields
(quoted fields may contain separators; a doubled quote inside a quoted field
is a literal quote). -/

/-- Prepend a character to the first field (or line) of a split result. -/
def consHead (c : Char) : List Str → List Str
  | [] => [[c]]
  | f :: r => (c :: f) :: r

/-- Reader state for one CSV line: outside quotes, inside a quoted field, or
just after a quote inside a quoted field (which is either the closing quote
or the first of a doubled literal quote). -/
inductive CsvMode where
  | plain | quoted | closing
deriving DecidableEq, Repr

/-- Split one CSV record line into its fields: a comma outside quotes
separates fields, a quote opens a quoted field, and inside quotes a doubled
quote is a literal quote while a single one closes the field. -/
def splitCsvRun : CsvMode → Str → List Str
  | _, [] => [[]]
  | .plain, c :: t =>
    if c = ',' then [] :: splitCsvRun .plain t
    else if c = '"' then splitCsvRun .quoted t
    else consHead c (splitCsvRun .plain t)
  | .quoted, c :: t =>
    if c = '"' then splitCsvRun .closing t
    else consHead c (splitCsvRun .quoted t)
  | .closing, c :: t =>
    if c = '"' then consHead '"' (splitCsvRun .quoted t)
    else if c = ',' then [] :: splitCsvRun .plain t
    else consHead c (splitCsvRun .plain t)

/-- Split a document into segments at every newline. -/
def splitLines : Str → List Str
  | [] => [[]]
  | c :: t => if c = '\n' then [] :: splitLines t else consHead c (splitLines t)

/-- The text produced by a sequence of `outputWrite` calls: each written line
followed by a newline (`src/output.ts` lines 59–66). -/
def renderedDoc (lines : List Str) : Str :=
  (lines.map (fun l => l ++ ['\n'])).flatten

/-- Read a CSV document: split into lines, drop the empty segment after the
final newline, and split every line into fields. -/
def parseCsvDoc (doc : Str) : List (List Str) :=
  let ls := splitLines doc
  let ls := if ls.getLast? = some [] then ls.dropLast else ls
  ls.map (splitCsvRun .plain)

/-- Prepend a string to the first field of a split result (used to state how
the reader accumulates a quoted field). -/
def prependHead (f : Str) : List Str → List Str
  | [] => [f]
  | g :: t => (f ++ g) :: t

/-! ## Canonical per-field form of `configureOutput`

Each module variable's value after `configureOutput` depends only on the
arguments and (for the conditionally assigned variables) its previous value;
the functions below give that per-field value, and
`configureOutput_eq` proves the sequential definition equal to this form. -/

/-- The field-selector branch's effect on `outputJson`, as a function of the
previous value. -/
def fieldJson (a : CfgArgs) (old : Bool) : Bool :=
  match a.field with
  | .bool true => old
  | f => if truthy f then true else old

/-- Final `outputJson` after `configureOutput`: set from `args.json`, forced
on by a configured field selector. -/
def cfgJson (a : CfgArgs) : Bool := fieldJson a (truthy a.json)

/-- Final `outputField` as a function of its previous value. -/
def cfgField (a : CfgArgs) (old : Option Str) : Option Str :=
  match a.field with
  | .bool true => old
  | f => if truthy f then some (jsToString f) else old

/-- The format-normalization statement as a function of the previous format. -/
def fmtSel (a : CfgArgs) (old : Fmt) : Fmt :=
  if truthy a.format then
    if normFmt a = "json".data then .json
    else if normFmt a = "table".data then .table
    else if normFmt a = "csv".data then .csv
    else if normFmt a = "tsv".data then .tsv
    else if normFmt a = "yaml".data then .yaml
    else old
  else old

/-- Final `outputFormat` as a function of its previous value. -/
def cfgFormat (a : CfgArgs) (old : Fmt) : Fmt :=
  if truthy a.json then .json else fmtSel a old

/-- The `args.truncate` statement as a function of the previous width. -/
def truncSel (a : CfgArgs) (old : Option Int) : Option Int :=
  match a.truncate with
  | .undefined => old
  | .null => old
  | .bool true => some 80
  | v => parseIntJS (jsToString v)

/-- Final `outputTruncate` as a function of its previous value. -/
def cfgTruncate (a : CfgArgs) (old : Option Int) : Option Int :=
  if truthy a.noTruncate then some 0 else truncSel a old

/-- Final `outputFile` as a function of its previous value. -/
def cfgFile (a : CfgArgs) (old : Option Str) : Option Str :=
  if truthy a.output then some (jsToString a.output) else old

end MemoClaw

namespace MemoClaw

/-! ## Theorems -/

set_option maxHeartbeats 1000000

/-- Canonical form of the field-selector step. -/
theorem cfgStepField_eq (a : CfgArgs) (s : OutState) :
    cfgStepField a s = { s with outputJson := fieldJson a s.outputJson,
                                outputField := cfgField a s.outputField } := by
  unfold cfgStepField fieldJson cfgField
  (repeat' split) <;> simp_all

/-- Canonical form of the format step. -/
theorem cfgStepFormat_eq (a : CfgArgs) (s : OutState) :
    cfgStepFormat a s = { s with outputFormat := fmtSel a s.outputFormat } := by
  unfold cfgStepFormat fmtSel
  split_ifs <;> rfl

/-- Canonical form of the json-format step. -/
theorem cfgStepJson_eq (a : CfgArgs) (s : OutState) :
    cfgStepJson a s =
      { s with outputFormat := if truthy a.json then .json else s.outputFormat } := by
  unfold cfgStepJson
  split_ifs <;> rfl

/-- Canonical form of the truncate step. -/
theorem cfgStepTruncate_eq (a : CfgArgs) (s : OutState) :
    cfgStepTruncate a s = { s with outputTruncate := truncSel a s.outputTruncate } := by
  unfold cfgStepTruncate truncSel
  (repeat' split) <;> simp_all

/-- Canonical form of the no-truncate application step. -/
theorem cfgStepNoTruncApply_eq (s : OutState) :
    cfgStepNoTruncApply s =
      { s with outputTruncate := if s.noTruncate then some 0 else s.outputTruncate } := by
  unfold cfgStepNoTruncApply
  split_ifs <;> rfl

/-- Canonical form of the output-file step. -/
theorem cfgStepOutput_eq (a : CfgArgs) (s : OutState) :
    cfgStepOutput a s = { s with outputFile := cfgFile a s.outputFile } := by
  unfold cfgStepOutput cfgFile
  split_ifs <;> rfl

/-- Statement that `configureOutput` equals its canonical per-field form: every resulting
field is a function of the arguments and that field's previous value alone. -/
theorem configureOutput_eq (a : CfgArgs) (s : OutState) :
    configureOutput a s =
      { outputJson := cfgJson a, outputQuiet := truthy a.quiet,
        outputPretty := truthy a.pretty, outputFormat := cfgFormat a s.outputFormat,
        outputTruncate := cfgTruncate a s.outputTruncate, outputFile := cfgFile a s.outputFile,
        noTruncate := truthy a.noTruncate, outputField := cfgField a s.outputField } := by
  unfold configureOutput cfgStepBase cfgStepNoTrunc
  rw [cfgStepField_eq, cfgStepFormat_eq, cfgStepJson_eq, cfgStepTruncate_eq,
    cfgStepNoTruncApply_eq, cfgStepOutput_eq]
  rfl

/-- Idempotence of `cfgField` in its state argument. -/
theorem cfgField_idem (a : CfgArgs) (o : Option Str) :
    cfgField a (cfgField a o) = cfgField a o := by
  unfold cfgField
  (repeat' split) <;> simp_all

/-- Idempotence of `cfgFormat` in its state argument. -/
theorem cfgFormat_idem (a : CfgArgs) (o : Fmt) :
    cfgFormat a (cfgFormat a o) = cfgFormat a o := by
  unfold cfgFormat fmtSel
  split_ifs <;> rfl

/-- Idempotence of `cfgTruncate` in its state argument. -/
theorem cfgTruncate_idem (a : CfgArgs) (o : Option Int) :
    cfgTruncate a (cfgTruncate a o) = cfgTruncate a o := by
  unfold cfgTruncate truncSel
  (repeat' split) <;> simp_all

/-- Idempotence of `cfgFile` in its state argument. -/
theorem cfgFile_idem (a : CfgArgs) (o : Option Str) :
    cfgFile a (cfgFile a o) = cfgFile a o := by
  unfold cfgFile
  split_ifs <;> rfl

/-- C6: `configureOutput` is idempotent — configuring twice from the same
parsed arguments leaves every output-configuration field (json mode, quiet,
pretty, format, truncation width, output file, no-truncate, field selector)
in the same state as configuring once. -/
theorem configureOutput_idempotent (a : CfgArgs) (s : OutState) :
    configureOutput a (configureOutput a s) = configureOutput a s := by
  rw [configureOutput_eq a s, configureOutput_eq]
  simp [cfgField_idem, cfgFormat_idem, cfgTruncate_idem, cfgFile_idem]

/-- C7: a truthy `noTruncate` argument forces the truncation width to 0
(unlimited), whatever `truncate` argument is also present. -/
theorem noTruncate_forces_unlimited (a : CfgArgs) (s : OutState)
    (h : truthy a.noTruncate = true) :
    (configureOutput a s).outputTruncate = some 0 := by
  rw [configureOutput_eq]
  simp [cfgTruncate, h]

/-- Witness for `noTruncate_forces_unlimited`: an explicit `--truncate 40`
together with `--no-truncate` still yields width 0. -/
theorem noTruncate_forces_unlimited_witness :
    (configureOutput { truncate := .str "40".data, noTruncate := .bool true }
      initialOutState).outputTruncate = some 0 :=
  noTruncate_forces_unlimited _ initialOutState (by decide)

/-- C9: `truncate` parsed as boolean `true` (flag given without a value) with
`noTruncate` absent sets the truncation width to the default 80. -/
theorem truncate_flag_defaults_80 (a : CfgArgs) (s : OutState)
    (ht : a.truncate = .bool true) (hn : a.noTruncate = .undefined) :
    (configureOutput a s).outputTruncate = some 80 := by
  rw [configureOutput_eq]
  simp [cfgTruncate, truncSel, ht, hn, truthy]

/-- Witness for `truncate_flag_defaults_80`. -/
theorem truncate_flag_defaults_80_witness :
    (configureOutput { truncate := .bool true } initialOutState).outputTruncate = some 80 :=
  truncate_flag_defaults_80 { truncate := .bool true } initialOutState rfl rfl

/-- Lemma that `truncate` leaves the text alone when the width is non-positive or not
exceeded. -/
theorem truncate_of_le (text : Str) (w : Int)
    (h : w ≤ 0 ∨ (text.length : Int) ≤ w) : truncate text w = text := by
  rw [truncate, if_pos h]

/-- When the text exceeds a positive width, the truncation has length exactly
`w` and ends in the ellipsis. -/
theorem truncate_of_gt (text : Str) (w : Int) (hw : 0 < w)
    (hl : w < (text.length : Int)) :
    ((truncate text w).length : Int) = w ∧ (truncate text w).getLast? = some '…' := by
  have hcond : ¬(w ≤ 0 ∨ (text.length : Int) ≤ w) := by omega
  constructor
  · rw [truncate, if_neg hcond, jsSlice0, if_pos (by omega : (0 : Int) ≤ w - 1)]
    simp only [List.length_append, List.length_take, List.length_cons, List.length_nil]
    rw [Nat.min_eq_left (by omega : (w - 1).toNat ≤ text.length)]
    omega
  · rw [truncate, if_neg hcond]
    exact List.getLast?_concat _

/-- C5: `truncate` returns the text unchanged for non-positive widths and for
text not exceeding the width; otherwise the result has length exactly `w` and
ends in the ellipsis character; and `truncate` is idempotent. -/
theorem truncate_contract (text : Str) (w : Int) :
    (w ≤ 0 → truncate text w = text) ∧
    ((text.length : Int) ≤ w → truncate text w = text) ∧
    (0 < w → w < (text.length : Int) →
      ((truncate text w).length : Int) = w ∧ (truncate text w).getLast? = some '…') ∧
    truncate (truncate text w) w = truncate text w := by
  refine ⟨fun h => truncate_of_le text w (Or.inl h),
          fun h => truncate_of_le text w (Or.inr h),
          fun h1 h2 => truncate_of_gt text w h1 h2, ?_⟩
  by_cases h : w ≤ 0 ∨ (text.length : Int) ≤ w
  · rw [truncate_of_le text w h]
    exact truncate_of_le text w h
  · rcases not_or.mp h with ⟨hw, hl⟩
    have hlen := (truncate_of_gt text w (by omega) (by omega)).1
    exact truncate_of_le _ w (Or.inr (le_of_eq hlen))

/-- Witness for `truncate_contract` at text "hello world", width 5. -/
theorem truncate_contract_witness :
    ((truncate "hello world".data 5).length : Int) = 5 ∧
    (truncate "hello world".data 5).getLast? = some '…' :=
  (truncate_contract "hello world".data 5).2.2.1 (by decide) (by decide)

/-- C1 counterexample: with quiet configured, the primary renderer `out`
produces no output at all for a plain string payload — contradicting the
claim that quiet never suppresses primary render output. -/
theorem quiet_suppresses_out :
    out (configureOutput { quiet := .bool true } initialOutState) (.str "hello".data) = [] := by
  decide

/-- C1 amended: under quiet, `success` and `info` produce no output and error
output (`warn`) is still produced, but the primary renderer `out` is also
suppressed — quiet silences primary render output in addition to the
decorative helpers. -/
theorem quiet_semantics (cfg : OutState) (msg : Str) (data : JSVal)
    (h : cfg.outputQuiet = true) :
    success cfg msg = [] ∧ info cfg msg = [] ∧ warn cfg msg ≠ [] ∧ out cfg data = [] := by
  refine ⟨?_, ?_, ?_, ?_⟩ <;> simp [success, info, warn, out, h]

/-- Witness for `quiet_semantics` on a quiet configuration built by
`configureOutput`. -/
theorem quiet_semantics_witness :
    success (configureOutput { quiet := .bool true } initialOutState) "done".data = [] ∧
    info (configureOutput { quiet := .bool true } initialOutState) "done".data = [] ∧
    warn (configureOutput { quiet := .bool true } initialOutState) "done".data ≠ [] ∧
    out (configureOutput { quiet := .bool true } initialOutState) (.num 3) = [] :=
  quiet_semantics _ "done".data (.num 3) (by decide)

/-! ### Parser theorems -/

/-- A successful association lookup hits an element of the list. -/
theorem assocLookup_mem {α : Type} : ∀ {l : List (Str × α)} {k : Str} {v : α},
    assocLookup l k = some v → (k, v) ∈ l
  | [], _, _, h => by simp [assocLookup] at h
  | (k₁, v₁) :: t, k, v, h => by
    simp only [assocLookup] at h
    split at h
    · rename_i heq
      cases h
      subst heq
      exact List.mem_cons_self _ _
    · exact List.mem_cons_of_mem _ (assocLookup_mem h)

/-- Every key of the short-alias table is a dash plus one character that is
neither a dash nor an equals sign. -/
theorem shortFlags_shape :
    ∀ p ∈ shortFlags, p.1.length = 2 ∧ p.1[0]? = some '-' ∧
      p.1[1]? ≠ some '-' ∧ p.1[1]? ≠ some '=' := by decide

/-- A single short value flag whose following token is absent or dash-shaped
binds `true` and consumes nothing. -/
theorem shortValueFlag_binds_true (c : Char) (key : Str) (rest : List Str) (st : ParsedArgs)
    (hk : assocLookup shortFlags ['-', c] = some key) (hb : key ∉ booleanFlags)
    (hr : rest = [] ∨ ∃ v ts, rest = v :: ts ∧ startsWithDash v = true) :
    parseLoop (['-', c] :: rest) st = parseLoop rest (setFlag st key .vTrue) := by
  obtain ⟨-, -, h1, h2⟩ := shortFlags_shape _ (assocLookup_mem hk)
  have hc1 : c ≠ '-' := by simpa using h1
  have hc2 : c ≠ '=' := by simpa using h2
  have hss : isShortShape ['-', c] = true := by simp [isShortShape, hc1]
  have hin : inlineShort ['-', c] = none := by
    have hm : '=' ∉ (['-', c] : Str) := by
      simp only [List.mem_cons, List.not_mem_nil, or_false, not_or]
      exact ⟨by decide, Ne.symm hc2⟩
    simp [inlineShort, hm]
  have hstep : stepToken ['-', c] rest st = .cont (setFlag st key .vTrue) false := by
    rcases hr with rfl | ⟨v, ts, rfl, hv⟩
    · simp [stepToken, hss, hin, hk, hb]
    · simp [stepToken, hss, hin, hk, hb, hv]
  simp [parseLoop, hstep]

/-- A long value flag whose following token is absent, or starts with two
dashes without matching the negative-number pattern, binds `true` and
consumes nothing. -/
theorem longValueFlag_binds_true (name : Str) (rest : List Str) (st : ParsedArgs)
    (hne : name ≠ []) (he : '=' ∉ name) (hb : camelize name ∉ booleanFlags)
    (hr : rest = [] ∨
      ∃ v ts, rest = v :: ts ∧ startsWithTwoDashes v = true ∧ negNumLike v = false) :
    parseLoop (('-' :: '-' :: name) :: rest) st =
      parseLoop rest (setFlag st (camelize name) .vTrue) := by
  have hss : isShortShape ('-' :: '-' :: name) = false := by simp [isShortShape]
  have hdd : ('-' :: '-' :: name : Str) ≠ ['-', '-'] := by
    intro h
    injection h with _ h
    injection h with _ h
    exact hne h
  have hsw : startsWithTwoDashes ('-' :: '-' :: name) = true := rfl
  have hm : '=' ∉ ('-' :: '-' :: name : Str) := by
    simp only [List.mem_cons, not_or]
    exact ⟨by decide, by decide, he⟩
  have hstep : stepToken ('-' :: '-' :: name) rest st =
      .cont (setFlag st (camelize name) .vTrue) false := by
    rcases hr with rfl | ⟨v, ts, rfl, hv, hnn⟩
    · simp [stepToken, hss, hdd, hsw, hm, hb]
    · simp [stepToken, hss, hdd, hsw, hm, hb, hv, hnn]
  simp [parseLoop, hstep]

/-- C2 amended: a short value flag followed by nothing or by a dash-shaped
token binds boolean `true` without consuming the next token; a long value
flag does so only when the next token is absent, or starts with two dashes
and does not match the negative-number pattern (a single-dash follower such
as `-j` IS consumed as its value); and the scenario `-n --json` yields
`namespace = true` and `json = true`. -/
theorem valueFlag_peek_rule :
    (∀ c key rest st, assocLookup shortFlags ['-', c] = some key → key ∉ booleanFlags →
      (rest = [] ∨ ∃ v ts, rest = v :: ts ∧ startsWithDash v = true) →
      parseLoop (['-', c] :: rest) st = parseLoop rest (setFlag st key .vTrue)) ∧
    (∀ name rest st, name ≠ [] → '=' ∉ name → camelize name ∉ booleanFlags →
      (rest = [] ∨
        ∃ v ts, rest = v :: ts ∧ startsWithTwoDashes v = true ∧ negNumLike v = false) →
      parseLoop (('-' :: '-' :: name) :: rest) st =
        parseLoop rest (setFlag st (camelize name) .vTrue)) ∧
    parseArgs ["-n".data, "--json".data] =
      ⟨[], [("namespace".data, .vTrue), ("json".data, .vTrue)]⟩ :=
  ⟨shortValueFlag_binds_true, longValueFlag_binds_true, by decide⟩

/-- Witness for `valueFlag_peek_rule` at the spec's own scenario. -/
theorem valueFlag_peek_rule_witness :
    parseLoop (['-', 'n'] :: ["--json".data]) ⟨[], []⟩ =
      parseLoop ["--json".data] (setFlag ⟨[], []⟩ "namespace".data .vTrue) :=
  valueFlag_peek_rule.1 'n' "namespace".data ["--json".data] ⟨[], []⟩ (by decide) (by decide)
    (Or.inr ⟨"--json".data, [], rfl, by decide⟩)

/-- C2 counterexample: `--namespace` followed by the flag-shaped token `-j`
does not bind `true` — the parser consumes `-j` as the namespace value,
because the long-flag peek only rejects tokens starting with two dashes. -/
theorem longValueFlag_consumes_dash_token :
    parseArgs ["--namespace".data, "-j".data] =
      ⟨[], [("namespace".data, .vStr "-j".data)]⟩ := by decide

/-- When the tail has no next token, the combined loop consumes nothing. -/
theorem combinedGo_none_consumed (cs : List Char) :
    ∀ st, (combinedGo st cs none).2 = false := by
  induction cs with
  | nil => intro st; rfl
  | cons c cs₁ ih =>
    intro st
    cases cs₁ with
    | nil =>
      simp only [combinedGo]
      cases assocLookup shortFlags ['-', c] with
      | none => rfl
      | some key => by_cases hb : key ∈ booleanFlags <;> simp [hb]
    | cons d cs₂ =>
      simp only [combinedGo]
      cases assocLookup shortFlags ['-', c] with
      | none => exact ih st
      | some key => exact ih (setFlag st key .vTrue)

/-- Under `allValidShort`, the code's combined-flag loop computes exactly the
specification's left-to-right rule. -/
theorem combinedGo_eq_spec : ∀ (cs : List Char), allValidShort cs = true →
    ∀ (rest : List Str) (st : ParsedArgs),
    combinedShortSpec cs rest st =
      ((combinedGo st cs rest.head?).1,
       if (combinedGo st cs rest.head?).2 then rest.tail else rest)
  | [], _, rest, st => by simp [combinedShortSpec, combinedGo]
  | [c], hv, rest, st => by
    cases hk : assocLookup shortFlags ['-', c] with
    | none =>
      exfalso
      simp [allValidShort, hk] at hv
    | some key =>
      simp only [combinedShortSpec, combinedGo, hk]
      by_cases hb : key ∈ booleanFlags
      · simp [hb]
      · cases rest with
        | nil => simp [hb]
        | cons v ts => by_cases hd : startsWithDash v <;> simp [hb, hd]
  | c :: d :: cs₂, hv, rest, st => by
    have hv1 : (assocLookup shortFlags ['-', c]).isSome := by
      simp only [allValidShort, List.all_cons, Bool.and_eq_true] at hv
      exact hv.1
    have hv2 : allValidShort (d :: cs₂) = true := by
      simp only [allValidShort, List.all_cons, Bool.and_eq_true] at hv ⊢
      exact ⟨hv.2.1, hv.2.2⟩
    cases hk : assocLookup shortFlags ['-', c] with
    | none => simp [hk] at hv1
    | some key =>
      simp only [combinedShortSpec, combinedGo, hk]
      exact combinedGo_eq_spec (d :: cs₂) hv2 rest (setFlag st key .vTrue)

/-- Any token the alias table resolves has exactly two characters. -/
theorem assocLookup_shortFlags_len {s : Str} {v : Str}
    (h : assocLookup shortFlags s = some v) : s.length = 2 :=
  (shortFlags_shape _ (assocLookup_mem h)).1

/-- C3: for a combined short-flag token (a dash, then at least two
characters, second character not a dash, not handled by the inline `=`
rule): if every character resolves via the alias table the token is
processed by the specification's left-to-right rule (`combinedShortSpec`),
and if any character fails to resolve the whole token becomes a positional
and no flag is bound. -/
theorem combinedShortFlag_rule (c : Char) (cs : List Char) (rest : List Str) (st : ParsedArgs)
    (hc : c ≠ '-') (hcs : cs ≠ []) (hin : inlineShort ('-' :: c :: cs) = none) :
    (allValidShort (c :: cs) = true →
      parseLoop (('-' :: c :: cs) :: rest) st =
        parseLoop (combinedShortSpec (c :: cs) rest st).2 (combinedShortSpec (c :: cs) rest st).1) ∧
    (allValidShort (c :: cs) = false →
      parseLoop (('-' :: c :: cs) :: rest) st =
        parseLoop rest (pushPos st ('-' :: c :: cs))) := by
  have hss : isShortShape ('-' :: c :: cs) = true := by simp [isShortShape, hc]
  have hlen : ('-' :: c :: cs : Str).length ≠ 2 := by
    simp only [List.length_cons]
    cases cs with
    | nil => exact absurd rfl hcs
    | cons _ _ => simp
  have hlk : assocLookup shortFlags ('-' :: c :: cs) = none := by
    cases hk : assocLookup shortFlags ('-' :: c :: cs) with
    | none => rfl
    | some key => exact absurd (assocLookup_shortFlags_len hk) hlen
  have hdrop : ('-' :: c :: cs : Str).drop 1 = c :: cs := rfl
  constructor
  · intro hv
    have hstep : stepToken ('-' :: c :: cs) rest st =
        .cont (combinedGo st (c :: cs) rest.head?).1 (combinedGo st (c :: cs) rest.head?).2 := by
      simp [stepToken, hss, hin, hlen, hlk, hdrop, hv, hcs]
    rw [combinedGo_eq_spec (c :: cs) hv rest st]
    cases rest with
    | nil =>
      have hnc := combinedGo_none_consumed (c :: cs) st
      simp only [List.head?_nil] at hstep
      simp [parseLoop, hstep, hnc]
    | cons v ts =>
      simp only [List.head?_cons] at hstep
      by_cases hcons : (combinedGo st (c :: cs) (some v)).2 <;>
        simp [parseLoop, hstep, hcons]
  · intro hv
    have hstep : stepToken ('-' :: c :: cs) rest st = .cont (pushPos st ('-' :: c :: cs)) false := by
      simp [stepToken, hss, hin, hlen, hlk, hdrop, hv, hcs]
    simp [parseLoop, hstep]

/-- Witness for `combinedShortFlag_rule`: the token `-qn` followed by a
plain value token. -/
theorem combinedShortFlag_rule_witness :
    parseLoop (['-', 'q', 'n'] :: ["ns1".data]) ⟨[], []⟩ =
      parseLoop (combinedShortSpec ['q', 'n'] ["ns1".data] ⟨[], []⟩).2
        (combinedShortSpec ['q', 'n'] ["ns1".data] ⟨[], []⟩).1 :=
  (combinedShortFlag_rule 'q' ['n'] ["ns1".data] ⟨[], []⟩ (by decide) (by decide) (by decide)).1
    (by decide)

/-! ### CSV round-trip lemmas -/

/-- Lemma that `consHead` never returns the empty split. -/
theorem consHead_ne_nil (c : Char) (l : List Str) : consHead c l ≠ [] := by
  cases l <;> simp [consHead]

/-- The CSV line reader always yields at least one field. -/
theorem splitCsvRun_ne_nil (m : CsvMode) (s : Str) : splitCsvRun m s ≠ [] := by
  induction s generalizing m with
  | nil => cases m <;> simp [splitCsvRun]
  | cons c t ih =>
    cases m <;> simp only [splitCsvRun] <;> split_ifs <;>
      first
        | exact consHead_ne_nil _ _
        | exact ih _
        | simp

/-- Lemma that `consHead` after `prependHead` accumulates on the same first field. -/
theorem consHead_prependHead (c : Char) (f : Str) (l : List Str) :
    consHead c (prependHead f l) = prependHead (c :: f) l := by
  cases l <;> simp [consHead, prependHead]

/-- Lemma that `prependHead` with the empty string is the identity on nonempty splits. -/
theorem prependHead_nil (l : List Str) (h : l ≠ []) : prependHead [] l = l := by
  cases l with
  | nil => exact absurd rfl h
  | cons g t => simp [prependHead]

/-- One step of quote doubling. -/
theorem dquote_cons (c : Char) (f : Str) :
    dquote (c :: f) = (if c = '"' then ['"', '"'] else [c]) ++ dquote f := by
  simp [dquote]

/-- Reading a doubled-quotes body followed by a closing quote accumulates
the original field and continues in the `closing` state. -/
theorem splitCsvRun_quoted_dquote (f : Str) (r : Str) :
    splitCsvRun .quoted (dquote f ++ '"' :: r) = prependHead f (splitCsvRun .closing r) := by
  induction f with
  | nil =>
    have : dquote [] = ([] : Str) := rfl
    rw [this, List.nil_append, splitCsvRun]
    rw [if_pos rfl, prependHead_nil _ (splitCsvRun_ne_nil _ _)]
  | cons c f ih =>
    rw [dquote_cons]
    by_cases hc : c = '"'
    · subst hc
      rw [if_pos rfl]
      show splitCsvRun .quoted ('"' :: '"' :: (dquote f ++ '"' :: r)) = _
      rw [splitCsvRun, if_pos rfl, splitCsvRun, if_pos rfl, ih, consHead_prependHead]
    · rw [if_neg hc]
      show splitCsvRun .quoted (c :: (dquote f ++ '"' :: r)) = _
      rw [splitCsvRun, if_neg hc, ih, consHead_prependHead]

/-- Reading a separator-free, quote-free field: it ends at the next comma,
or at the end of the line. -/
theorem splitCsvRun_plain_clean (f : Str) (hc : ',' ∉ f) (hq : '"' ∉ f) :
    (∀ s, splitCsvRun .plain (f ++ ',' :: s) = f :: splitCsvRun .plain s) ∧
    splitCsvRun .plain f = [f] := by
  induction f with
  | nil =>
    refine ⟨fun s => ?_, rfl⟩
    rw [List.nil_append, splitCsvRun, if_pos rfl]
  | cons c t ih =>
    simp only [List.mem_cons, not_or] at hc hq
    obtain ⟨ih1, ih2⟩ := ih (fun h => hc.2 h) (fun h => hq.2 h)
    have hc1 : ¬c = ',' := fun h => hc.1 h.symm
    have hq1 : ¬c = '"' := fun h => hq.1 h.symm
    constructor
    · intro s
      show splitCsvRun .plain (c :: (t ++ ',' :: s)) = _
      rw [splitCsvRun, if_neg hc1, if_neg hq1, ih1 s, consHead]
    · show splitCsvRun .plain (c :: t) = _
      rw [splitCsvRun, if_neg hc1, if_neg hq1, ih2, consHead]

/-- Reading one escaped field: `csvEscape` round-trips through the reader,
whether the field is followed by a comma or ends the line. -/
theorem splitCsvRun_escape (f : Str) :
    (∀ s, splitCsvRun .plain (csvEscape f ++ ',' :: s) = f :: splitCsvRun .plain s) ∧
    splitCsvRun .plain (csvEscape f) = [f] := by
  by_cases h : ',' ∈ f ∨ '"' ∈ f
  · constructor
    · intro s
      rw [csvEscape, if_pos h]
      show splitCsvRun .plain ('"' :: (dquote f ++ ['"'] ++ ',' :: s)) = _
      rw [splitCsvRun, if_neg (by decide), if_pos rfl, List.append_assoc,
        List.singleton_append, splitCsvRun_quoted_dquote, splitCsvRun,
        if_neg (by decide), if_pos rfl]
      simp [prependHead]
    · rw [csvEscape, if_pos h]
      show splitCsvRun .plain ('"' :: (dquote f ++ ['"'])) = _
      rw [splitCsvRun, if_neg (by decide), if_pos rfl, splitCsvRun_quoted_dquote]
      simp [prependHead, splitCsvRun]
  · push_neg at h
    have he : csvEscape f = f := by rw [csvEscape, if_neg (not_or.mpr h)]
    rw [he]
    exact splitCsvRun_plain_clean f h.1 h.2

/-- Computation of `intercalate` on a single list: it is that list. -/
theorem intercalate_singleton (sep x : Str) : List.intercalate sep [x] = x := by
  simp [List.intercalate, List.intersperse]

/-- Computation of `intercalate` over at least two lists: peel off the first. -/
theorem intercalate_cons₂ (sep x y : Str) (t : List Str) :
    List.intercalate sep (x :: y :: t) = x ++ sep ++ List.intercalate sep (y :: t) := by
  simp [List.intercalate, List.intersperse]

/-- Reading a full line of escaped fields recovers the fields. -/
theorem splitCsvRun_line (fs : List Str) (h : fs ≠ []) :
    splitCsvRun .plain (List.intercalate [','] (fs.map csvEscape)) = fs := by
  induction fs with
  | nil => exact absurd rfl h
  | cons f t ih =>
    cases t with
    | nil =>
      show splitCsvRun .plain (List.intercalate [','] [csvEscape f]) = _
      rw [intercalate_singleton]
      exact (splitCsvRun_escape f).2
    | cons g t₂ =>
      rw [List.map_cons, List.map_cons, intercalate_cons₂, List.append_assoc,
        List.singleton_append, (splitCsvRun_escape f).1, ← List.map_cons, ih (by simp)]

/-- A character other than the separator survives `intercalate` absence. -/
theorem not_mem_intercalate (c : Char) (hc : c ≠ ',') (ls : List Str)
    (h : ∀ l ∈ ls, c ∉ l) : c ∉ List.intercalate [','] ls := by
  induction ls with
  | nil => simp [List.intercalate]
  | cons x t ih =>
    cases t with
    | nil =>
      rw [intercalate_singleton]
      exact h x (List.mem_cons_self _ _)
    | cons y t₂ =>
      rw [intercalate_cons₂]
      simp only [List.mem_append, List.mem_singleton, not_or]
      refine ⟨⟨h x (List.mem_cons_self _ _), hc⟩, ?_⟩
      exact ih (fun l hl => h l (List.mem_cons_of_mem _ hl))

/-- Lemma that `dquote` introduces only quote characters. -/
theorem not_mem_dquote (c : Char) (f : Str) (hq : c ≠ '"') (h : c ∉ f) :
    c ∉ dquote f := by
  induction f with
  | nil => simp [dquote]
  | cons d t ih =>
    simp only [List.mem_cons, not_or] at h
    rw [dquote_cons]
    simp only [List.mem_append, not_or]
    refine ⟨?_, ih h.2⟩
    split_ifs <;> simp_all

/-- Lemma that `csvEscape` introduces only quote characters. -/
theorem not_mem_csvEscape (c : Char) (f : Str) (hq : c ≠ '"') (h : c ∉ f) :
    c ∉ csvEscape f := by
  rw [csvEscape]
  split_ifs
  · have hd := not_mem_dquote c f hq h
    simp [List.mem_cons, List.mem_append, hq, hd]
  · exact h

/-- Splitting after appending one newline-free line and a newline. -/
theorem splitLines_append (l s : Str) (h : '\n' ∉ l) :
    splitLines (l ++ '\n' :: s) = l :: splitLines s := by
  induction l with
  | nil =>
    rw [List.nil_append, splitLines, if_pos rfl]
  | cons c t ih =>
    simp only [List.mem_cons, not_or] at h
    have hc : ¬c = '\n' := fun hcc => h.1 hcc.symm
    show splitLines (c :: (t ++ '\n' :: s)) = _
    rw [splitLines, if_neg hc, ih h.2, consHead]

/-- Splitting the rendered document recovers the written lines (plus the
empty segment after the final newline). -/
theorem splitLines_renderedDoc (lines : List Str) (h : ∀ l ∈ lines, '\n' ∉ l) :
    splitLines (renderedDoc lines) = lines ++ [[]] := by
  induction lines with
  | nil => rfl
  | cons l t ih =>
    have : renderedDoc (l :: t) = l ++ '\n' :: renderedDoc t := by
      simp [renderedDoc]
    rw [this, splitLines_append l _ (h l (List.mem_cons_self _ _)),
      ih (fun x hx => h x (List.mem_cons_of_mem _ hx))]
    rfl

/-- Reading back the rendered document is reading each written line. -/
theorem parseCsvDoc_renderedDoc (lines : List Str) (h : ∀ l ∈ lines, '\n' ∉ l) :
    parseCsvDoc (renderedDoc lines) = lines.map (splitCsvRun .plain) := by
  unfold parseCsvDoc
  rw [splitLines_renderedDoc lines h]
  simp

/-- The CSV branch of `out` on a non-empty array of records, spelled out. -/
theorem out_csv_lines (cfg : OutState) (r₀ : List (Str × JSVal)) (rs : List JSVal)
    (hq : cfg.outputQuiet = false) (hfld : cfg.outputField = none)
    (hj : cfg.outputJson = false) (hfmt : cfg.outputFormat = .csv) :
    out cfg (.arr (.obj r₀ :: rs)) =
      List.intercalate [','] (r₀.map Prod.fst) ::
        (JSVal.obj r₀ :: rs).map (fun row =>
          List.intercalate [','] ((r₀.map Prod.fst).map
            (fun h => csvEscape (cellRaw row h)))) := by
  simp [out, hq, hfld, hj, hfmt, optStrTruthy, csvTsvRender, objKeys]

/-- C8 amended: rendering a non-empty sequence of records through the CSV
output path and reading the document back recovers the keys of the first
record and the stringified cell values of every record — provided the first
record has at least one key, no key contains a comma, quote or newline (keys
are written unescaped), and no stringified cell value contains a newline
(the escaping quotes only commas and quotes, and the reader splits lines
first). -/
theorem csv_roundtrip (cfg : OutState) (r₀ : List (Str × JSVal)) (rs : List JSVal)
    (hq : cfg.outputQuiet = false) (hfld : cfg.outputField = none)
    (hj : cfg.outputJson = false) (hfmt : cfg.outputFormat = .csv)
    (hh : r₀.map Prod.fst ≠ [])
    (hclean : ∀ h ∈ r₀.map Prod.fst, ',' ∉ h ∧ '"' ∉ h ∧ '\n' ∉ h)
    (hcell : ∀ row ∈ JSVal.obj r₀ :: rs, ∀ h ∈ r₀.map Prod.fst, '\n' ∉ cellRaw row h) :
    parseCsvDoc (renderedDoc (out cfg (.arr (.obj r₀ :: rs)))) =
      r₀.map Prod.fst ::
        (JSVal.obj r₀ :: rs).map (fun row =>
          (r₀.map Prod.fst).map (fun h => cellRaw row h)) := by
  rw [out_csv_lines cfg r₀ rs hq hfld hj hfmt]
  rw [parseCsvDoc_renderedDoc]
  · rw [List.map_cons]
    congr 1
    · -- the header line parses back to the keys (they need no escaping)
      have hesc : (r₀.map Prod.fst).map csvEscape = r₀.map Prod.fst := by
        have : ∀ h ∈ r₀.map Prod.fst, csvEscape h = h := fun h hm => by
          rw [csvEscape, if_neg (not_or.mpr ⟨(hclean h hm).1, (hclean h hm).2.1⟩)]
        calc (r₀.map Prod.fst).map csvEscape
            = (r₀.map Prod.fst).map id := List.map_congr_left this
          _ = r₀.map Prod.fst := List.map_id _
      nth_rewrite 1 [← hesc]
      exact splitCsvRun_line _ hh
    · -- each data line parses back to that row's stringified cells
      rw [List.map_map]
      apply List.map_congr_left
      intro row hrow
      show splitCsvRun .plain
        (List.intercalate [','] ((r₀.map Prod.fst).map (fun h => csvEscape (cellRaw row h)))) = _
      have : (r₀.map Prod.fst).map (fun h => csvEscape (cellRaw row h)) =
          ((r₀.map Prod.fst).map (fun h => cellRaw row h)).map csvEscape := by
        simp [List.map_map, Function.comp_def]
      rw [this]
      exact splitCsvRun_line _ (by simpa using hh)
  · -- no written line contains a newline
    intro l hl
    rcases List.mem_cons.mp hl with rfl | hl
    · exact not_mem_intercalate '\n' (by decide) _ (fun x hx => (hclean x hx).2.2)
    · obtain ⟨row, hrow, rfl⟩ := List.mem_map.mp hl
      apply not_mem_intercalate '\n' (by decide)
      intro x hx
      obtain ⟨hkey, hk, rfl⟩ := List.mem_map.mp hx
      exact not_mem_csvEscape '\n' _ (by decide) (hcell row hrow hkey hk)

/-- C8 counterexample: a record whose key contains a comma does not
round-trip — the header row is written unescaped, so reading it back splits
the key `a,b` into two columns. -/
theorem csv_roundtrip_fails_on_comma_key :
    parseCsvDoc (renderedDoc (out { initialOutState with outputFormat := .csv }
      (.arr [.obj [("a,b".data, .num 1)]]))) ≠
      ["a,b".data] ::
        [JSVal.obj [("a,b".data, .num 1)]].map (fun row =>
          ["a,b".data].map (fun h => cellRaw row h)) := by
  decide

/-- Witness for `csv_roundtrip` on a two-record set with a comma and an
escaped quote in the values. -/
theorem csv_roundtrip_witness :
    parseCsvDoc (renderedDoc (out { initialOutState with outputFormat := .csv }
      (.arr [.obj [("a".data, .str "x,1".data), ("b".data, .num 2)],
             .obj [("a".data, .str "q\"z".data), ("b".data, .null)]]))) =
      ([("a".data, JSVal.str "x,1".data), ("b".data, JSVal.num 2)].map Prod.fst) ::
        ((JSVal.obj [("a".data, .str "x,1".data), ("b".data, .num 2)]) ::
          [JSVal.obj [("a".data, .str "q\"z".data), ("b".data, .null)]]).map (fun row =>
          (([("a".data, JSVal.str "x,1".data), ("b".data, JSVal.num 2)]).map Prod.fst).map
            (fun h => cellRaw row h)) :=
  csv_roundtrip { initialOutState with outputFormat := .csv }
    [("a".data, .str "x,1".data), ("b".data, .num 2)]
    [JSVal.obj [("a".data, .str "q\"z".data), ("b".data, .null)]]
    rfl rfl rfl rfl (by decide) (by decide) (by decide)

/-! ### Field-selector and table theorems -/

/-- C4: with a field selector configured, `out` walks the dot-path; a missing
key yields no output at all; a defined structured result is serialized as
JSON, pretty-printed exactly when the pretty setting is on, and any other
defined result is stringified directly; and the spec's scenario prints
exactly the compact JSON array. -/
theorem field_selector_rendering (cfg : OutState) (data : JSVal) (fld : Str)
    (hf : cfg.outputField = some fld) (hne : fld ≠ []) :
    (extractField data fld = .undefined → out cfg data = []) ∧
    (cfg.outputQuiet = false → ∀ v, extractField data fld = v → v ≠ .undefined →
      out cfg data =
        [if isObjType v then (if cfg.outputPretty then jsonPretty 0 v else jsonCompact v)
         else jsToString v]) ∧
    out (configureOutput { field := .str "memory.tags".data } initialOutState)
      (.obj [("memory".data, .obj [("tags".data, .arr [.str "x".data, .str "y".data])])]) =
      ["[\"x\",\"y\"]".data] := by
  refine ⟨?_, ?_, by decide⟩
  · intro he
    by_cases hq : cfg.outputQuiet <;> simp [out, hq, hf, optStrTruthy, hne, he]
  · intro hq v he hv
    cases v <;>
      first
        | exact absurd rfl hv
        | simp [out, hq, hf, optStrTruthy, hne, he, isObjType, jsonWriteLine]

/-- Witness for `field_selector_rendering`: a missing intermediate key is a
silent no-op on the configuration built by `configureOutput`. -/
theorem field_selector_rendering_witness :
    out (configureOutput { field := .str "memory.tags".data } initialOutState)
      (.obj [("other".data, .num 1)]) = [] :=
  (field_selector_rendering (configureOutput { field := .str "memory.tags".data }
      initialOutState)
    (.obj [("other".data, .num 1)]) "memory.tags".data (by decide) (by decide)).1 rfl

/-- C10: `table` has no quiet gate of its own — with quiet set and a
non-empty row list it still writes output under the table, json and yaml
formats; only the csv/tsv case, which delegates to the generic renderer
`out`, is suppressed under quiet (when json mode is off). -/
theorem table_ignores_quiet (cfg : OutState) (rows : List JSVal)
    (hrows : rows ≠ []) (hq : cfg.outputQuiet = true) :
    ((cfg.outputFormat = .table ∨ cfg.outputFormat = .json ∨ cfg.outputFormat = .yaml) →
      table cfg rows none false ≠ []) ∧
    (cfg.outputJson = false → (cfg.outputFormat = .csv ∨ cfg.outputFormat = .tsv) →
      table cfg rows none false = out cfg (.arr rows) ∧ table cfg rows none false = []) := by
  obtain ⟨r₀, rs, rfl⟩ : ∃ r₀ rs, rows = r₀ :: rs := by
    cases rows with
    | nil => exact absurd rfl hrows
    | cons a b => exact ⟨a, b, rfl⟩
  constructor
  · rintro (hf | hf | hf) <;> by_cases hj : cfg.outputJson <;>
      simp [table, hf, hj]
  · rintro hj (hf | hf) <;>
      exact ⟨by simp [table, hf, hj], by simp [table, out, hf, hj, hq]⟩

/-- Witness for `table_ignores_quiet`: under quiet, the default table format
still renders, and the csv delegation renders nothing. -/
theorem table_ignores_quiet_witness :
    table { initialOutState with outputQuiet := true } [.obj [("a".data, .num 1)]] none false ≠ []
      ∧
    table { initialOutState with outputQuiet := true, outputFormat := .csv }
      [.obj [("a".data, .num 1)]] none false = [] :=
  ⟨(table_ignores_quiet { initialOutState with outputQuiet := true }
      [.obj [("a".data, .num 1)]] (List.cons_ne_nil _ _) rfl).1 (Or.inl rfl),
   ((table_ignores_quiet { initialOutState with outputQuiet := true, outputFormat := .csv }
      [.obj [("a".data, .num 1)]] (List.cons_ne_nil _ _) rfl).2 rfl (Or.inl rfl)).2⟩

end MemoClaw

/-! ## Model checks

Concrete evaluations of the embedding on the specification's scenarios and
on assorted edge cases, all closed by kernel computation. -/

section ModelChecks
open MemoClaw

-- spec scenario: store hello world --importance 0.8 --tags a,b -j
example :
    parseArgs ["store".data, "hello world".data, "--importance".data, "0.8".data,
      "--tags".data, "a,b".data, "-j".data] =
    ⟨["store".data, "hello world".data],
     [("importance".data, .vStr "0.8".data), ("tags".data, .vStr "a,b".data),
      ("json".data, .vTrue)]⟩ := by decide

-- spec scenario: -n --json
example :
    parseArgs ["-n".data, "--json".data] =
    ⟨[], [("namespace".data, .vTrue), ("json".data, .vTrue)]⟩ := by decide

-- C2 counterexample shape: --namespace -j consumes -j as the value
example :
    parseArgs ["--namespace".data, "-j".data] =
    ⟨[], [("namespace".data, .vStr "-j".data)]⟩ := by decide

-- combined short flags -jq
example :
    parseArgs ["-jq".data] = ⟨[], [("json".data, .vTrue), ("quiet".data, .vTrue)]⟩ := by decide

-- combined with trailing value flag: -qn ns1
example :
    parseArgs ["-qn".data, "ns1".data] =
    ⟨[], [("quiet".data, .vTrue), ("namespace".data, .vStr "ns1".data)]⟩ := by decide

-- unknown char in combined: -jz → positional
example :
    parseArgs ["-jz".data] = ⟨["-jz".data], []⟩ := by decide

-- -- escape
example :
    parseArgs ["a".data, "--".data, "--b".data, "-c".data] =
    ⟨["a".data, "--b".data, "-c".data], []⟩ := by decide

-- kebab-case
example :
    parseArgs ["--foo-bar-baz".data, "v".data] =
    ⟨[], [("fooBarBaz".data, .vStr "v".data)]⟩ := by decide

-- inline short: -n=foo
example :
    parseArgs ["-n=foo".data] = ⟨[], [("namespace".data, .vStr "foo".data)]⟩ := by decide

-- negative number value: --limit -5
example :
    parseArgs ["--limit".data, "-5".data] =
    ⟨[], [("limit".data, .vStr "-5".data)]⟩ := by decide

-- C4 scenario: field selector memory.tags
example :
    out (configureOutput { field := .str "memory.tags".data } initialOutState)
      (.obj [("memory".data, .obj [("tags".data, .arr [.str "x".data, .str "y".data])])]) =
    ["[\"x\",\"y\"]".data] := by decide

-- missing intermediate key: silent no-op
example :
    out (configureOutput { field := .str "memory.tags".data } initialOutState)
      (.obj [("other".data, .num 1)]) = [] := by decide

-- quiet suppresses out
example :
    out { initialOutState with outputQuiet := true } (.str "hello".data) = [] := by decide

-- truncate behaviour
example : truncate "hello world".data 5 = "hell…".data := by decide
example : truncate "hello".data 0 = "hello".data := by decide
example : truncate "hello".data (-3) = "hello".data := by decide
example : truncate "hi".data 5 = "hi".data := by decide

-- configureOutput: --truncate with no value gives width 80
example : (configureOutput { truncate := .bool true } initialOutState).outputTruncate = some 80 := by
  decide

-- noTruncate wins over explicit truncate
example :
    (configureOutput { truncate := .str "40".data, noTruncate := .bool true }
      initialOutState).outputTruncate = some 0 := by decide

-- parseIntJS sanity
example : parseIntJS "40".data = some 40 := by decide
example : parseIntJS "  -12px".data = some (-12) := by decide
example : parseIntJS "abc".data = none := by decide
example : parseIntJS "0x10".data = some 16 := by decide

-- csv render
example :
    out { initialOutState with outputFormat := .csv }
      (.arr [.obj [("a".data, .str "x,1".data), ("b".data, .num 2)],
             .obj [("a".data, .str "q\"z".data), ("b".data, .null)]]) =
    ["a,b".data, "\"x,1\",2".data, "\"q\"\"z\",".data] := by decide

-- table render under quiet still writes (json format)
example :
    table { initialOutState with outputQuiet := true, outputFormat := .json }
      [.obj [("a".data, .num 1)]] none false ≠ [] := by decide

-- table csv path under quiet is suppressed
example :
    table { initialOutState with outputQuiet := true, outputFormat := .csv }
      [.obj [("a".data, .num 1)]] none false = [] := by decide

-- plain table render
example :
    table initialOutState [.obj [("id".data, .str "m1".data), ("n".data, .num 7)]] none false ≠ [] := by
  decide

-- the CSV reader on an escaped document
example :
    parseCsvDoc (renderedDoc ["a,b".data, "\"x,1\",2".data, "\"q\"\"z\",".data]) =
    [["a".data, "b".data], ["x,1".data, "2".data], ["q\"z".data, [] ]] := by decide

end ModelChecks
